import Mathlib

/-!
Verification of the cluster seed mutation engine
(`src/sage/combinat/cluster_algebra_quiver/cluster_seed.py`).

A cluster seed owns an (n+m) x n integer exchange matrix and a list of n+m
cluster variables, which are rational functions in the n+m initial
indeterminates over the rationals.  The mutation operation, the derived
quantities (F-polynomials, g-vectors, c-vectors) and the seed
transformations (principal extension, copying) are embedded below, following
the source line by line.  The rational function field is the external
capability described in the spec; it is embedded by syntactic
numerator/denominator pairs whose semantics is evaluation over the
rationals; equality of rational functions is the cross-multiplied
evaluation equality, which coincides with equality in the fraction field
of the polynomial ring (polynomials over an infinite field are equal iff
they are equal as functions).
-/

/-- Syntactic multivariate polynomials over the integers: the polynomial
expressions the cluster algebra code builds.  Variable `i` is the `i`-th
generator of the ambient field (generators `0..n-1` are the exchangeable
`x` variables, generators `n..n+m-1` the frozen `y` variables). -/
inductive Pexp where
  | const : ℤ → Pexp
  | var : ℕ → Pexp
  | add : Pexp → Pexp → Pexp
  | mul : Pexp → Pexp → Pexp
  | pow : Pexp → ℕ → Pexp
deriving DecidableEq, Repr

/-- Semantics of a polynomial expression: evaluation at a rational point. -/
def Pexp.eval (σ : ℕ → ℚ) : Pexp → ℚ
  | const c => (c : ℚ)
  | var i => σ i
  | add p q => p.eval σ + q.eval σ
  | mul p q => p.eval σ * q.eval σ
  | pow p e => (p.eval σ) ^ e

/-- A rational function, as an (unreduced) numerator/denominator pair.
This embeds the fraction field elements the source manipulates. -/
abbrev RF := Pexp × Pexp

/-- The multiplicative identity `1` of the rational function field. -/
def RF.one : RF := (Pexp.const 1, Pexp.const 1)

/-- Product in the fraction field. -/
def RF.mul (f g : RF) : RF := (Pexp.mul f.1 g.1, Pexp.mul f.2 g.2)

/-- Sum in the fraction field. -/
def RF.add (f g : RF) : RF :=
  (Pexp.add (Pexp.mul f.1 g.2) (Pexp.mul g.1 f.2), Pexp.mul f.2 g.2)

/-- Inverse in the fraction field (`f ** (-1)` in the source). -/
def RF.inv (f : RF) : RF := (f.2, f.1)

/-- Power by a natural exponent in the fraction field. -/
def RF.pow (f : RF) (e : ℕ) : RF := (Pexp.pow f.1 e, Pexp.pow f.2 e)

/-- Equality in the fraction field: cross-multiplied equality of the
evaluation semantics.  For pairs with nonzero denominators this is exactly
equality of the corresponding fraction field elements. -/
def RF.Eq (f g : RF) : Prop :=
  ∀ σ : ℕ → ℚ, f.1.eval σ * g.2.eval σ = g.1.eval σ * f.2.eval σ

/-- Elementwise field equality of two clusters (`self._cluster == other._cluster`
compares lists of fraction field elements). -/
def ClusterEq (c₁ c₂ : List RF) : Prop :=
  c₁.length = c₂.length ∧ ∀ i : ℕ, RF.Eq (c₁.getD i RF.one) (c₂.getD i RF.one)

/-- The error kinds of the spec's error taxonomy that the embedded
operations can raise (section 7 of the spec). -/
inductive Err where
  /-- `InvalidVertex`: a mutation index outside `[0, n)` (source line 753). -/
  | invalidVertex : ℤ → Err
  /-- `InvalidArgument`: malformed mutation sequence (source line 748). -/
  | invalidArgument : Err
  /-- `PreconditionUnmet`, "no principal coefficients" (source lines 493-494). -/
  | noPrincipalCoefficients : Err
  /-- `PreconditionUnmet`, "matrix not square" (source lines 496-497 and 899-900). -/
  | notSquare : Err
  /-- `IndexOutOfRange`: an invalid cluster variable / c-vector index. -/
  | invalidIndex : Err
deriving DecidableEq, Repr

/-- The dynamic `sequence` argument of `mutate`: a single integer, a list of
integers, or a tuple of integers (source lines 741-748 dispatch on the
runtime type of the argument). -/
inductive MutArg where
  | vertex : ℤ → MutArg
  | list : List ℤ → MutArg
  | tuple : List ℤ → MutArg

/-- The cluster seed state: the fields of `ClusterSeed.__init__`
(source lines 100-132).  The matrix is total on `ℕ × ℕ`; only the entries
with row `< n + m` and column `< n` are meaningful.  The cached quiver and
the mutation type are opaque to the claims and kept as presence flags. -/
structure Seed where
  n : ℕ
  m : ℕ
  M : ℕ → ℕ → ℤ
  cluster : List RF
  quiver : Option Unit
  mutationType : Option Unit
  description : String
  isPrincipal : Option Bool

/-- Python truthiness of the `_is_principal` field (`None` and `False` are
falsy). -/
def isTruthy : Option Bool → Bool
  | some true => true
  | _ => false

/-- Copy construction (source lines 100-110 and 132): every field is copied
from the existing seed, but `_is_principal` is set from the constructor
argument, which defaults to `None` — it is never copied from the source seed. -/
def copySeed (data : Seed) (is_principal : Option Bool := none) : Seed :=
  { n := data.n, m := data.m, M := data.M, cluster := data.cluster,
    quiver := data.quiver, mutationType := data.mutationType,
    description := data.description, isPrincipal := is_principal }

/-- The initial cluster: the `ν` generators of the ambient field
(source line 125, `self._cluster = list(self._R.gens())`). -/
def genList (ν : ℕ) : List RF :=
  (List.range ν).map (fun i => (Pexp.var i, Pexp.const 1))

/-- Modelled from the spec: constructing a seed from an `(n+m) x n` matrix
delegates to the external `ClusterQuiver` (not under `src/`), which keeps
the matrix and derives `n` and `m` from its shape; the seed construction
from the resulting quiver (source lines 113-125, which are under `src/`)
then installs the matrix, sets the cluster to the field generators, caches
the quiver, and stores `is_principal` verbatim (source line 132). -/
def seedFromMatrix (M : ℕ → ℕ → ℤ) (n m : ℕ) (is_principal : Option Bool) : Seed :=
  { n := n, m := m, M := M, cluster := genList (n + m),
    quiver := some (), mutationType := none,
    description := "A seed for a cluster algebra", isPrincipal := is_principal }

/-- Modelled from the spec: the in-place matrix mutation transform of the
external matrix type (spec section 4.2 step 4, restated there because the
algorithm's correctness depends on it; `self._M.mutate(k)` is not under
`src/`): row `k` and column `k` change sign, and for `i, j ≠ k` the entry
becomes `M[i,j] + sign(M[i,k]) * max(0, M[i,k] * M[k,j])`. -/
def mmut (M : ℕ → ℕ → ℤ) (k : ℕ) : ℕ → ℕ → ℤ := fun i j =>
  if i = k ∨ j = k then -M i j
  else M i j + (M i k).sign * max 0 (M i k * M k j)

/-- One pass of the monomial-building loop of `mutate` (source lines
761-765): vertex `j` contributes `cluster[j] ** M[j,k]` to `mon_p` when
`M[j,k] > 0` and `cluster[j] ** (-M[j,k])` to `mon_n` when `M[j,k] < 0`. -/
def monStep (M : ℕ → ℕ → ℤ) (cluster : List RF) (k : ℕ) (acc : RF × RF) (j : ℕ) :
    RF × RF :=
  if 0 < M j k then
    (RF.mul acc.1 (RF.pow (cluster.getD j RF.one) (M j k).toNat), acc.2)
  else if M j k < 0 then
    (acc.1, RF.mul acc.2 (RF.pow (cluster.getD j RF.one) (-(M j k)).toNat))
  else acc

/-- The two exchange monomials `(mon_p, mon_n)` of a mutation at `k`
(source lines 758-765): both start at `1` and are accumulated over
`j in range(n+m)`. -/
def monomials (M : ℕ → ℕ → ℤ) (cluster : List RF) (ν k : ℕ) : RF × RF :=
  (List.range ν).foldl (monStep M cluster k) (RF.one, RF.one)

/-- The binomial exchange relation (source line 767): the new value
`(mon_p + mon_n) * cluster[k] ** (-1)` installed at index `k`. -/
def exchVal (seed : Seed) (k : ℕ) : RF :=
  RF.mul
    (RF.add (monomials seed.M seed.cluster (seed.n + seed.m) k).1
            (monomials seed.M seed.cluster (seed.n + seed.m) k).2)
    (RF.inv (seed.cluster.getD k RF.one))

/-- One mutation step at vertex `k` (the body of the loop at source lines
755-768): the binomial exchange relation replaces `cluster[k]`, then the
matrix is mutated at `k`. -/
def mutAt (seed : Seed) (k : ℕ) : Seed :=
  { seed with
    cluster := seed.cluster.set k (exchVal seed k),
    M := mmut seed.M k }

/-- The mutation loop over the whole requested sequence (source lines 755-768). -/
def applyList (seed : Seed) (seq : List ℤ) : Seed :=
  seq.foldl (fun sd v => mutAt sd v.toNat) seed

/-- The upfront validation of `mutate` (source lines 741-753): a scalar in
`range(n)` becomes a one-element sequence; a scalar outside `range(n)` is
not recognized as a vertex, is then not a list or tuple, and raises the
`InvalidArgument` error; a tuple is converted to a list; any remaining
element outside `range(n)` raises the `InvalidVertex` error naming the
first offender (`filter(...)[0]`). -/
def normSeq (n : ℕ) (arg : MutArg) : Except Err (List ℤ) :=
  let asList : Option (List ℤ) :=
    match arg with
    | .vertex v => if 0 ≤ v ∧ v < (n : ℤ) then some [v] else none
    | .list l => some l
    | .tuple l => some l
  match asList with
  | none => .error .invalidArgument
  | some seq =>
    match seq.find? (fun v => !(decide (0 ≤ v ∧ v < (n : ℤ)))) with
    | some v => .error (.invalidVertex v)
    | none => .ok seq

/-- `ClusterSeed.mutate` (source lines 685-773): with `inplace=False` the
receiver is first copied (losing the `_is_principal` flag, line 736); the
sequence is validated upfront; then every step is applied and the cached
quiver is invalidated (line 771). -/
def mutate (s : Seed) (sequence : MutArg) (inplace : Bool := true) :
    Except Err Seed :=
  let seed := if inplace then s else copySeed s
  match normSeq seed.n sequence with
  | .error e => .error e
  | .ok seq => .ok { applyList seed seq with quiver := none }

/-- The in-place execution of `mutate` on the receiver: the final state of
the receiver paired with the raised error, mirroring the source line order —
every `raise` (lines 748, 750, 753) precedes the first write to
`seed._cluster` or `seed._M` (lines 755-768), so at the moment an error is
raised the receiver still holds its original state. -/
def mutateInPlace (s : Seed) (arg : MutArg) : Seed × Option Err :=
  match mutate s arg true with
  | .error e => (s, some e)
  | .ok t => (t, none)

/-- The recursion of `mutation_sequence` (source lines 809-812): repeatedly
mutate with `inplace=False`, collecting every intermediate seed. -/
def mutSeqGo (seed : Seed) : List ℤ → Except Err (List Seed)
  | [] => .ok []
  | v :: vs =>
    match mutate seed (.vertex v) false with
    | .error e => .error e
    | .ok t =>
      match mutSeqGo t vs with
      | .error e => .error e
      | .ok ts => .ok (t :: ts)

/-- `ClusterSeed.mutation_sequence` in its default `return_output='seed'`
mode (source lines 775-818): the receiver is first copied, then every
vertex is applied by a clone-and-mutate step. -/
def mutation_sequence (s : Seed) (sequence : List ℤ) : Except Err (List Seed) :=
  mutSeqGo (copySeed s) sequence

/-- Substitution of `1` for the exchangeable generators `x_0 .. x_{n-1}`
(the `eval_dict` of `f_polynomial`, source line 500). -/
def Pexp.substX (n : ℕ) : Pexp → Pexp
  | const c => const c
  | var i => if i < n then const 1 else var i
  | add p q => add (p.substX n) (q.substX n)
  | mul p q => mul (p.substX n) (q.substX n)
  | pow p e => pow (p.substX n) e

/-- Substitution of `0` for the frozen generators `y_0 .. y_{m-1}`
(the `eval_dict` of `g_vector`, source line 540). -/
def Pexp.substY (n m : ℕ) : Pexp → Pexp
  | const c => const c
  | var i => if n ≤ i ∧ i < n + m then const 0 else var i
  | add p q => add (p.substY n m) (q.substY n m)
  | mul p q => mul (p.substY n m) (q.substY n m)
  | pow p e => pow (p.substY n m) e

/-- Modelled from the spec: per-indeterminate degree extraction is a
capability of the external polynomial ring (spec section 6); it is embedded
syntactically on polynomial expressions. -/
def Pexp.degreeIn (i : ℕ) : Pexp → ℕ
  | const _ => 0
  | var j => if j = i then 1 else 0
  | add p q => max (p.degreeIn i) (q.degreeIn i)
  | mul p q => p.degreeIn i + q.degreeIn i
  | pow p e => e * p.degreeIn i

/-- Substitution applied to both numerator and denominator of a fraction
field element (Sage's `subs` on a fraction). -/
def RF.substX (n : ℕ) (f : RF) : RF := (f.1.substX n, f.2.substX n)

/-- `ClusterSeed.f_polynomial` (source lines 481-501): requires the
principal-coefficients flag (or the override flag), then `m == n`, then a
valid index; returns the `k`-th cluster variable with all `x_i` set to `1`. -/
def f_polynomial (s : Seed) (k : ℕ) (ignore_coefficients : Bool := false) :
    Except Err RF :=
  if ¬(ignore_coefficients || isTruthy s.isPrincipal) then
    .error .noPrincipalCoefficients
  else if s.m ≠ s.n then .error .notSquare
  else if ¬(k < s.n) then .error .invalidIndex
  else .ok (RF.substX s.n (s.cluster.getD k RF.one))

/-- `ClusterSeed.g_vector` (source lines 520-544): same preconditions as
`f_polynomial`, then the per-indeterminate degree difference of the `k`-th
cluster variable after setting every `y_i` to `0`. -/
def g_vector (s : Seed) (k : ℕ) (ignore_coefficients : Bool := false) :
    Except Err (List ℤ) :=
  if ¬(ignore_coefficients || isTruthy s.isPrincipal) then
    .error .noPrincipalCoefficients
  else if s.m ≠ s.n then .error .notSquare
  else if ¬(k < s.n) then .error .invalidIndex
  else
    let f := s.cluster.getD k RF.one
    let f0 : RF := (f.1.substY s.n s.m, f.2.substY s.n s.m)
    .ok ((List.range s.n).map
      (fun i => (f0.1.degreeIn i : ℤ) - (f0.2.degreeIn i : ℤ)))

/-- `ClusterSeed.c_vector` (source lines 565-581): the index check comes
first, then the principal-coefficients check; the value is the `k`-th
column of the bottom `m x n` block of the matrix. -/
def c_vector (s : Seed) (k : ℕ) (ignore_coefficients : Bool := false) :
    Except Err (List ℤ) :=
  if ¬(k < s.n) then .error .invalidIndex
  else if ¬(ignore_coefficients || isTruthy s.isPrincipal) then
    .error .noPrincipalCoefficients
  else .ok ((List.range s.m).map (fun i => s.M (s.n + i) k))

/-- Stacking the `n x n` identity matrix below the `rows x n` matrix `M`
(source line 901, `self._M.stack(identity_matrix(self._n))`). -/
def stackId (M : ℕ → ℕ → ℤ) (rows : ℕ) : ℕ → ℕ → ℤ := fun i j =>
  if i < rows then M i j else if i - rows = j then 1 else 0

/-- `ClusterSeed.principal_extension` (source lines 852-905): requires
`m == 0` unless the override flag is passed (otherwise the
`PreconditionUnmet` "matrix not square" error); stacks the identity below
the current matrix and builds a fresh seed from the stacked matrix with
`is_principal = (m == 0)`, inheriting the mutation type. -/
def principal_extension (s : Seed) (ignore_coefficients : Bool := false) :
    Except Err Seed :=
  if ¬ignore_coefficients ∧ s.m ≠ 0 then .error .notSquare
  else
    .ok { seedFromMatrix (stackId s.M (s.n + s.m)) s.n (s.m + s.n)
            (some (decide (s.m = 0))) with
          mutationType := s.mutationType }

/-- Bounded matrix equality: equality of all entries with row `< rows` and
column `< cols`. -/
abbrev matEqOn (rows cols : ℕ) (A B : ℕ → ℕ → ℤ) : Prop :=
  ∀ i, i < rows → ∀ j, j < cols → A i j = B i j

/-- Skew-symmetrizability of the top `n x n` block (the construction
invariant of the exchange matrix, spec section 3): some positive integer
diagonal `d` makes `d * M` antisymmetric. -/
def SkewSymmetrizable (M : ℕ → ℕ → ℤ) (n : ℕ) : Prop :=
  ∃ d : ℕ → ℤ, (∀ i, i < n → 0 < d i) ∧
    ∀ i, i < n → ∀ j, j < n → d i * M i j = -(d j * M j i)

/-- Boolean success test for an embedded fallible call. -/
def exceptIsOk {α : Type} : Except Err α → Bool
  | .ok _ => true
  | .error _ => false

/-- Clearing the cached quiver, as `mutate` does after the loop
(source line 771). -/
def quivNone (s : Seed) : Seed := { s with quiver := none }

/-- The type A rank 4 initial exchange matrix (spec section 8 scenario; the
docstring of `b_matrix`, source lines 308-312, records the same matrix for
`ClusterSeed(['A',4])`). -/
def a4M : ℕ → ℕ → ℤ := fun i j =>
  (([[0, 1, 0, 0], [-1, 0, -1, 0], [0, 1, 0, 1], [0, 0, -1, 0]].getD i []).getD j 0)

/-- The expected matrix after mutating the type A rank 4 seed at vertex 0
(spec section 8 scenario; docstring at source lines 702-706). -/
def a4MutM : ℕ → ℕ → ℤ := fun i j =>
  (([[0, -1, 0, 0], [1, 0, -1, 0], [0, 1, 0, 1], [0, 0, -1, 0]].getD i []).getD j 0)

/-- The type A rank 4 seed. -/
def seedA4 : Seed := seedFromMatrix a4M 4 0 none

/-- The type A rank 3 initial exchange matrix (top block of the docstring
matrix at source lines 1000-1006 for `ClusterSeed(['A',3]).principal_extension()`). -/
def a3M : ℕ → ℕ → ℤ := fun i j =>
  (([[0, 1, 0], [-1, 0, -1], [0, 1, 0]].getD i []).getD j 0)

/-- The type A rank 3 seed. -/
def seedA3 : Seed := seedFromMatrix a3M 3 0 none

/-- The rank 3 type A seed with principal coefficients,
`ClusterSeed(['A',3]).principal_extension()`. -/
def seedA3PE : Seed := (principal_extension seedA3).toOption.getD seedA3

/-- The principal rank 3 seed after `mutate([2,1,2])` in place. -/
def c4seed : Seed := (mutate seedA3PE (.list [2, 1, 2])).toOption.getD seedA3PE

/-- The `k`-th F-polynomial of the mutated principal rank 3 seed. -/
def c4val (k : ℕ) : RF := (f_polynomial c4seed k).toOption.getD RF.one

/-- The polynomial `y1*y2 + y2 + 1` (generators `y1 = x_4`, `y2 = x_5`). -/
def c4target1 : Pexp :=
  Pexp.add (Pexp.add (Pexp.mul (Pexp.var 4) (Pexp.var 5)) (Pexp.var 5)) (Pexp.const 1)

/-- The polynomial `y1 + 1`. -/
def c4target2 : Pexp := Pexp.add (Pexp.var 4) (Pexp.const 1)

/-- The principal extension of the type A rank 4 seed. -/
def seedA4pe : Seed := (principal_extension seedA4).toOption.getD seedA4

/-- The type A rank 4 seed mutated at 0, and its principal extension. -/
def seedA4mut : Seed := (mutate seedA4 (.vertex 0) true).toOption.getD seedA4

def seedA4mutPE : Seed := (principal_extension seedA4mut).toOption.getD seedA4mut

/-- The principal rank 3 seed cloned by mutate and by mutation_sequence. -/
def seedA3PEmut : Seed := (mutate seedA3PE (.vertex 0) false).toOption.getD seedA3PE

def seedA3PEseq : List Seed := (mutation_sequence seedA3PE [0]).toOption.getD []

/-- The four seeds of the C8 witness on the rank 4 seed, vertices 0 and 3. -/
def c8s1 : Seed := (mutate seedA4 (.vertex ((0:ℕ) : ℤ)) true).toOption.getD seedA4

def c8s2 : Seed := (mutate c8s1 (.vertex ((3:ℕ) : ℤ)) true).toOption.getD seedA4

def c8t1 : Seed := (mutate seedA4 (.vertex ((3:ℕ) : ℤ)) true).toOption.getD seedA4

def c8t2 : Seed := (mutate c8t1 (.vertex ((0:ℕ) : ℤ)) true).toOption.getD seedA4

/-- The numerator of `f_polynomial 1` on the mutated principal rank 3 seed
(the explicit computed term, certified by `rfl` in the C4 proof). -/
def c4num1 : Pexp := Pexp.mul (Pexp.add (Pexp.mul (Pexp.mul (Pexp.mul (Pexp.mul (Pexp.const 1) (Pexp.pow (Pexp.const 1) 1)) (Pexp.pow (Pexp.var 4) 1)) (Pexp.pow (Pexp.var 5) 1)) (Pexp.mul (Pexp.const 1) (Pexp.pow (Pexp.mul (Pexp.mul (Pexp.mul (Pexp.const 1) (Pexp.pow (Pexp.const 1) 1)) (Pexp.mul (Pexp.const 1) (Pexp.pow (Pexp.const 1) 1))) (Pexp.const 1)) 1))) (Pexp.mul (Pexp.mul (Pexp.const 1) (Pexp.pow (Pexp.mul (Pexp.add (Pexp.mul (Pexp.mul (Pexp.const 1) (Pexp.pow (Pexp.var 5) 1)) (Pexp.mul (Pexp.const 1) (Pexp.pow (Pexp.const 1) 1))) (Pexp.mul (Pexp.mul (Pexp.const 1) (Pexp.pow (Pexp.const 1) 1)) (Pexp.mul (Pexp.const 1) (Pexp.pow (Pexp.const 1) 1)))) (Pexp.const 1)) 1)) (Pexp.mul (Pexp.mul (Pexp.mul (Pexp.const 1) (Pexp.pow (Pexp.const 1) 1)) (Pexp.pow (Pexp.const 1) 1)) (Pexp.pow (Pexp.const 1) 1)))) (Pexp.const 1)

/-- The denominator of `f_polynomial 1` on the mutated principal rank 3 seed. -/
def c4den1 : Pexp := Pexp.mul (Pexp.mul (Pexp.mul (Pexp.mul (Pexp.mul (Pexp.const 1) (Pexp.pow (Pexp.const 1) 1)) (Pexp.pow (Pexp.const 1) 1)) (Pexp.pow (Pexp.const 1) 1)) (Pexp.mul (Pexp.const 1) (Pexp.pow (Pexp.mul (Pexp.mul (Pexp.mul (Pexp.const 1) (Pexp.pow (Pexp.const 1) 1)) (Pexp.mul (Pexp.const 1) (Pexp.pow (Pexp.const 1) 1))) (Pexp.const 1)) 1))) (Pexp.const 1)

/-- The numerator of `f_polynomial 2` on the mutated principal rank 3 seed. -/
def c4num2 : Pexp := Pexp.mul (Pexp.add (Pexp.mul (Pexp.mul (Pexp.mul (Pexp.const 1) (Pexp.pow (Pexp.const 1) 1)) (Pexp.pow (Pexp.var 4) 1)) (Pexp.mul (Pexp.const 1) (Pexp.pow (Pexp.mul (Pexp.mul (Pexp.mul (Pexp.mul (Pexp.mul (Pexp.const 1) (Pexp.pow (Pexp.const 1) 1)) (Pexp.pow (Pexp.const 1) 1)) (Pexp.pow (Pexp.const 1) 1)) (Pexp.mul (Pexp.const 1) (Pexp.pow (Pexp.mul (Pexp.mul (Pexp.mul (Pexp.const 1) (Pexp.pow (Pexp.const 1) 1)) (Pexp.mul (Pexp.const 1) (Pexp.pow (Pexp.const 1) 1))) (Pexp.const 1)) 1))) (Pexp.const 1)) 1))) (Pexp.mul (Pexp.mul (Pexp.const 1) (Pexp.pow (Pexp.mul (Pexp.add (Pexp.mul (Pexp.mul (Pexp.mul (Pexp.mul (Pexp.const 1) (Pexp.pow (Pexp.const 1) 1)) (Pexp.pow (Pexp.var 4) 1)) (Pexp.pow (Pexp.var 5) 1)) (Pexp.mul (Pexp.const 1) (Pexp.pow (Pexp.mul (Pexp.mul (Pexp.mul (Pexp.const 1) (Pexp.pow (Pexp.const 1) 1)) (Pexp.mul (Pexp.const 1) (Pexp.pow (Pexp.const 1) 1))) (Pexp.const 1)) 1))) (Pexp.mul (Pexp.mul (Pexp.const 1) (Pexp.pow (Pexp.mul (Pexp.add (Pexp.mul (Pexp.mul (Pexp.const 1) (Pexp.pow (Pexp.var 5) 1)) (Pexp.mul (Pexp.const 1) (Pexp.pow (Pexp.const 1) 1))) (Pexp.mul (Pexp.mul (Pexp.const 1) (Pexp.pow (Pexp.const 1) 1)) (Pexp.mul (Pexp.const 1) (Pexp.pow (Pexp.const 1) 1)))) (Pexp.const 1)) 1)) (Pexp.mul (Pexp.mul (Pexp.mul (Pexp.const 1) (Pexp.pow (Pexp.const 1) 1)) (Pexp.pow (Pexp.const 1) 1)) (Pexp.pow (Pexp.const 1) 1)))) (Pexp.const 1)) 1)) (Pexp.mul (Pexp.mul (Pexp.const 1) (Pexp.pow (Pexp.const 1) 1)) (Pexp.pow (Pexp.const 1) 1)))) (Pexp.mul (Pexp.mul (Pexp.mul (Pexp.const 1) (Pexp.pow (Pexp.const 1) 1)) (Pexp.mul (Pexp.const 1) (Pexp.pow (Pexp.const 1) 1))) (Pexp.const 1))

/-- The denominator of `f_polynomial 2` on the mutated principal rank 3 seed. -/
def c4den2 : Pexp := Pexp.mul (Pexp.mul (Pexp.mul (Pexp.mul (Pexp.const 1) (Pexp.pow (Pexp.const 1) 1)) (Pexp.pow (Pexp.const 1) 1)) (Pexp.mul (Pexp.const 1) (Pexp.pow (Pexp.mul (Pexp.mul (Pexp.mul (Pexp.mul (Pexp.mul (Pexp.const 1) (Pexp.pow (Pexp.const 1) 1)) (Pexp.pow (Pexp.const 1) 1)) (Pexp.pow (Pexp.const 1) 1)) (Pexp.mul (Pexp.const 1) (Pexp.pow (Pexp.mul (Pexp.mul (Pexp.mul (Pexp.const 1) (Pexp.pow (Pexp.const 1) 1)) (Pexp.mul (Pexp.const 1) (Pexp.pow (Pexp.const 1) 1))) (Pexp.const 1)) 1))) (Pexp.const 1)) 1))) (Pexp.mul (Pexp.add (Pexp.mul (Pexp.mul (Pexp.const 1) (Pexp.pow (Pexp.var 5) 1)) (Pexp.mul (Pexp.const 1) (Pexp.pow (Pexp.const 1) 1))) (Pexp.mul (Pexp.mul (Pexp.const 1) (Pexp.pow (Pexp.const 1) 1)) (Pexp.mul (Pexp.const 1) (Pexp.pow (Pexp.const 1) 1)))) (Pexp.const 1))

/-! ### Basic lemmas about the embedding -/

theorem rfEq_refl (f : RF) : RF.Eq f f := fun _ => rfl

theorem getD_set_ne {α : Type} (l : List α) (i j : ℕ) (x d : α) (h : i ≠ j) :
    (l.set i x).getD j d = l.getD j d := by
  simp [List.getD, List.getElem?_set_ne h]

theorem getD_set_self {α : Type} (l : List α) (i : ℕ) (x d : α) (h : i < l.length) :
    (l.set i x).getD i d = x := by
  simp [List.getD, List.getElem?_set_self, h]

/-- Record-update projections of a mutation step. -/
theorem mutAt_n (s : Seed) (k : ℕ) : (mutAt s k).n = s.n := rfl

theorem mutAt_m (s : Seed) (k : ℕ) : (mutAt s k).m = s.m := rfl

theorem mutAt_M (s : Seed) (k : ℕ) : (mutAt s k).M = mmut s.M k := rfl

theorem mutAt_cluster (s : Seed) (k : ℕ) :
    (mutAt s k).cluster = s.cluster.set k (exchVal s k) := rfl

theorem mutAt_isPrincipal (s : Seed) (k : ℕ) :
    (mutAt s k).isPrincipal = s.isPrincipal := rfl

theorem applyList_isPrincipal (seq : List ℤ) :
    ∀ s : Seed, (applyList s seq).isPrincipal = s.isPrincipal := by
  induction seq with
  | nil => intro s; rfl
  | cons v vs ih => intro s; exact ih (mutAt s v.toNat)

theorem applyList_n (seq : List ℤ) : ∀ s : Seed, (applyList s seq).n = s.n := by
  induction seq with
  | nil => intro s; rfl
  | cons v vs ih => intro s; exact ih (mutAt s v.toNat)

/-! ### The matrix mutation transform -/

/-- Unfolding `mmut` on row or column `k`. -/
theorem mmut_flip (M : ℕ → ℕ → ℤ) (k i j : ℕ) (h : i = k ∨ j = k) :
    mmut M k i j = -M i j := if_pos h

/-- Unfolding `mmut` away from row and column `k`. -/
theorem mmut_other (M : ℕ → ℕ → ℤ) (k i j : ℕ) (h : ¬(i = k ∨ j = k)) :
    mmut M k i j = M i j + (M i k).sign * max 0 (M i k * M k j) := if_neg h

/-- The matrix mutation is an involution: mutating the matrix twice at the
same vertex restores every entry. -/
theorem mmut_invol (M : ℕ → ℕ → ℤ) (k : ℕ) : mmut (mmut M k) k = M := by
  funext i j
  by_cases h : i = k ∨ j = k
  · rw [mmut_flip _ _ _ _ h, mmut_flip _ _ _ _ h, neg_neg]
  · rw [mmut_other _ _ _ _ h, mmut_other _ _ _ _ h,
      mmut_flip M k i k (Or.inr rfl), mmut_flip M k k j (Or.inl rfl),
      Int.sign_neg, neg_mul_neg]
    ring

/-- A skew-symmetrizable block has zero diagonal. -/
theorem SkewSymmetrizable.diag_zero {M : ℕ → ℕ → ℤ} {n : ℕ}
    (h : SkewSymmetrizable M n) {k : ℕ} (hk : k < n) : M k k = 0 := by
  obtain ⟨d, hd, hanti⟩ := h
  have h1 := hanti k hk k hk
  have h2 : d k * M k k = 0 := by linarith
  have h3 : d k ≠ 0 := ne_of_gt (hd k hk)
  rcases mul_eq_zero.mp h2 with h | h
  · exact absurd h h3
  · exact h

/-- When `M k l = 0`, mutating at `k` leaves column `l ≠ k` untouched. -/
theorem mmut_col_other (M : ℕ → ℕ → ℤ) (k l : ℕ) (hne : l ≠ k) (hkl : M k l = 0) :
    ∀ j, mmut M k j l = M j l := by
  intro j
  by_cases hj : j = k
  · rw [hj, mmut_flip M k k l (Or.inl rfl), hkl, neg_zero]
  · rw [mmut_other M k j l (by tauto), hkl, mul_zero, max_self, mul_zero, add_zero]

/-- When `M k l = 0`, mutating at `k` leaves row `l ≠ k` untouched
(using also `M l k = 0`). -/
theorem mmut_row_other (M : ℕ → ℕ → ℤ) (k l : ℕ) (hne : l ≠ k) (hlk : M l k = 0) :
    ∀ j, mmut M k l j = M l j := by
  intro j
  by_cases hj : j = k
  · rw [hj, mmut_flip M k l k (Or.inr rfl), hlk, neg_zero]
  · rw [mmut_other M k l j (by tauto), hlk]
    simp

/-- Matrix mutations at two vertices with vanishing mutual entries commute. -/
theorem mmut_comm (M : ℕ → ℕ → ℤ) (k l : ℕ) (hkl : M k l = 0) (hlk : M l k = 0) :
    mmut (mmut M k) l = mmut (mmut M l) k := by
  by_cases he : k = l
  · rw [he]
  · have hlek : l ≠ k := fun h => he h.symm
    have hAcol : ∀ j, mmut M k j l = M j l := mmut_col_other M k l hlek hkl
    have hArow : ∀ j, mmut M k l j = M l j := mmut_row_other M k l hlek hlk
    have hBcol : ∀ j, mmut M l j k = M j k := mmut_col_other M l k he hlk
    have hBrow : ∀ j, mmut M l k j = M k j := mmut_row_other M l k he hkl
    funext i j
    by_cases hik : i = k
    · by_cases hjl : j = l
      · rw [hik, hjl, mmut_flip (mmut M k) l k l (Or.inr rfl),
          mmut_flip (mmut M l) k k l (Or.inl rfl), hAcol k, hBrow l]
      · by_cases hjk : j = k
        · rw [hik, hjk, mmut_other (mmut M k) l k k (by tauto),
            mmut_flip (mmut M l) k k k (Or.inl rfl),
            mmut_flip M k k k (Or.inl rfl), hAcol k, hArow k, hkl,
            mmut_other M l k k (by tauto), hkl]
          simp
        · rw [hik, mmut_other (mmut M k) l k j (by tauto),
            mmut_flip (mmut M l) k k j (Or.inl rfl),
            mmut_flip M k k j (Or.inl rfl), hAcol k, hArow j, hkl, hBrow j]
          simp
    · by_cases hil : i = l
      · by_cases hjk : j = k
        · rw [hil, hjk, mmut_flip (mmut M k) l l k (Or.inl rfl),
            mmut_flip (mmut M l) k l k (Or.inr rfl), hArow k, hBcol l]
        · by_cases hjl : j = l
          · rw [hil, hjl, mmut_flip (mmut M k) l l l (Or.inl rfl),
              mmut_other (mmut M l) k l l (by tauto),
              mmut_flip M l l l (Or.inl rfl), hAcol l, hBcol l, hlk, hBrow l, hkl]
            simp
          · rw [hil, mmut_flip (mmut M k) l l j (Or.inl rfl),
              mmut_other (mmut M l) k l j (by tauto),
              mmut_flip M l l j (Or.inl rfl), hArow j, hBcol l, hlk, hBrow j]
            simp
      · by_cases hjk : j = k
        · rw [hjk, mmut_other (mmut M k) l i k (by tauto),
            mmut_flip (mmut M l) k i k (Or.inr rfl),
            mmut_flip M k i k (Or.inr rfl), hAcol i, hArow k, hlk, hBcol i]
          simp
        · by_cases hjl : j = l
          · rw [hjl, mmut_flip (mmut M k) l i l (Or.inr rfl),
              mmut_other (mmut M l) k i l (by tauto),
              mmut_flip M l i l (Or.inr rfl), hAcol i, hBcol i, hBrow l, hkl]
            simp
          · rw [mmut_other (mmut M k) l i j (by tauto),
              mmut_other (mmut M l) k i j (by tauto),
              mmut_other M k i j (by tauto), mmut_other M l i j (by tauto),
              hAcol i, hArow j, hBcol i, hBrow j]
            ring

/-! ### The exchange monomials -/

theorem foldl_swap (f g : RF × RF → ℕ → RF × RF)
    (h : ∀ a j, f a j = Prod.swap (g (Prod.swap a) j)) :
    ∀ (l : List ℕ) (a : RF × RF), l.foldl f a = Prod.swap (l.foldl g (Prod.swap a)) := by
  intro l
  induction l with
  | nil => intro a; exact (Prod.swap_swap a).symm
  | cons j t ih =>
    intro a
    show List.foldl f (f a j) t = Prod.swap (List.foldl g (g (Prod.swap a) j) t)
    rw [h a j, ih, Prod.swap_swap]

theorem foldl_congr_fn {α β : Type} (f g : α → β → α)
    (h : ∀ a j, f a j = g a j) : ∀ (l : List β) (a : α), l.foldl f a = l.foldl g a := by
  intro l
  induction l with
  | nil => intro a; rfl
  | cons j t ih =>
    intro a
    show List.foldl f (f a j) t = List.foldl g (g a j) t
    rw [h a j]
    exact ih _

/-- After mutating the matrix at `k` and replacing `cluster[k]`, the
monomial step at column `k` computes the swapped pair of monomials. -/
theorem monStep_swap (M : ℕ → ℕ → ℤ) (c : List RF) (k : ℕ) (x : RF) (h0 : M k k = 0) :
    ∀ (a : RF × RF) (j : ℕ),
      monStep (mmut M k) (c.set k x) k a j = Prod.swap (monStep M c k (Prod.swap a) j) := by
  intro a j
  by_cases hj : j = k
  · have h1 : mmut M k j k = 0 := by
      rw [hj, mmut_flip M k k k (Or.inl rfl), h0, neg_zero]
    have h2 : M j k = 0 := by rw [hj, h0]
    simp [monStep, h1, h2]
  · have h1 : mmut M k j k = -M j k := mmut_flip M k j k (Or.inr rfl)
    have h2 : (c.set k x).getD j RF.one = c.getD j RF.one :=
      getD_set_ne c k j x RF.one (fun h => hj h.symm)
    rcases lt_trichotomy (M j k) 0 with hlt | heq | hgt
    · simp only [monStep, h1, h2]
      rw [if_pos (by omega : (0:ℤ) < -M j k), if_neg (by omega : ¬ (0:ℤ) < M j k),
        if_pos hlt]
      simp
    · simp [monStep, h1, h2, heq]
    · simp only [monStep, h1, h2]
      rw [if_neg (by omega : ¬ (0:ℤ) < -M j k), if_pos hgt,
        if_pos (by omega : -M j k < 0), neg_neg]
      simp

/-- The monomial pair of the second mutation at `k` is the swap of the
monomial pair of the first. -/
theorem monomials_mmut_swap (M : ℕ → ℕ → ℤ) (c : List RF) (ν k : ℕ) (x : RF)
    (h0 : M k k = 0) :
    monomials (mmut M k) (c.set k x) ν k = Prod.swap (monomials M c ν k) := by
  have h := foldl_swap (monStep (mmut M k) (c.set k x) k) (monStep M c k)
    (monStep_swap M c k x h0) (List.range ν) (RF.one, RF.one)
  simpa [monomials] using h

/-- The monomial pair only depends on column `k` of the matrix and the
cluster entries at rows where that column is nonzero. -/
theorem monomials_congr (M₁ M₂ : ℕ → ℕ → ℤ) (c₁ c₂ : List RF) (ν k : ℕ)
    (hM : ∀ j, M₁ j k = M₂ j k)
    (hc : ∀ j, M₂ j k ≠ 0 → c₁.getD j RF.one = c₂.getD j RF.one) :
    monomials M₁ c₁ ν k = monomials M₂ c₂ ν k := by
  apply foldl_congr_fn
  intro a j
  by_cases hz : M₂ j k = 0
  · simp [monStep, hM j, hz]
  · have hc' := hc j hz
    simp only [monStep, hM j, hc']

/-! ### Involution and commutation of mutation steps -/

theorem mutAt_mutAt_M (s : Seed) (k : ℕ) : (mutAt (mutAt s k) k).M = s.M := by
  rw [mutAt_M, mutAt_M, mmut_invol]

theorem mutAt_mutAt_cluster (s : Seed) (k : ℕ) (h0 : s.M k k = 0)
    (hk : k < s.cluster.length) :
    ClusterEq (mutAt (mutAt s k) k).cluster s.cluster := by
  have hswap : monomials (mutAt s k).M (mutAt s k).cluster
      ((mutAt s k).n + (mutAt s k).m) k
      = Prod.swap (monomials s.M s.cluster (s.n + s.m) k) := by
    rw [mutAt_M, mutAt_cluster, mutAt_n, mutAt_m]
    exact monomials_mmut_swap s.M s.cluster (s.n + s.m) k (exchVal s k) h0
  have hgd : (mutAt s k).cluster.getD k RF.one = exchVal s k := by
    rw [mutAt_cluster]
    exact getD_set_self _ _ _ _ hk
  have hv : exchVal (mutAt s k) k =
      RF.mul (RF.add (Prod.swap (monomials s.M s.cluster (s.n + s.m) k)).1
                     (Prod.swap (monomials s.M s.cluster (s.n + s.m) k)).2)
             (RF.inv (exchVal s k)) := by
    rw [exchVal, hswap, hgd]
  have hcl : (mutAt (mutAt s k) k).cluster = s.cluster.set k (exchVal (mutAt s k) k) := by
    rw [mutAt_cluster (mutAt s k), mutAt_cluster, List.set_set]
  constructor
  · rw [hcl]
    simp
  · intro i
    by_cases hi : i = k
    · rw [hi, hcl, getD_set_self _ _ _ _ hk, hv]
      simp only [exchVal]
      intro σ
      simp only [RF.mul, RF.add, RF.inv, Pexp.eval, Prod.fst_swap, Prod.snd_swap]
      ring
    · rw [hcl, getD_set_ne _ _ _ _ _ (fun h => hi h.symm)]
      exact rfEq_refl _

/-- When the two vertices are independent (`M k l = 0`), the exchange value
at `l` is unchanged by the mutation step at `k`. -/
theorem exchVal_mutAt_other (s : Seed) (k l : ℕ) (hne : l ≠ k) (hkl : s.M k l = 0) :
    exchVal (mutAt s k) l = exchVal s l := by
  have hmon : monomials (mutAt s k).M (mutAt s k).cluster
      ((mutAt s k).n + (mutAt s k).m) l = monomials s.M s.cluster (s.n + s.m) l := by
    rw [mutAt_M, mutAt_cluster, mutAt_n, mutAt_m]
    apply monomials_congr
    · exact mmut_col_other s.M k l hne hkl
    · intro j hj
      apply getD_set_ne
      intro h
      rw [← h] at hj
      exact hj hkl
  have hgd : (mutAt s k).cluster.getD l RF.one = s.cluster.getD l RF.one := by
    rw [mutAt_cluster]
    exact getD_set_ne _ _ _ _ _ (fun h => hne h.symm)
  rw [exchVal, exchVal, hmon, hgd]

/-- Mutation steps at two vertices with vanishing mutual matrix entries can
be interchanged: matrix and cluster of the results coincide. -/
theorem mutAt_comm (s : Seed) (k l : ℕ) (hkl : s.M k l = 0) (hlk : s.M l k = 0) :
    (mutAt (mutAt s k) l).M = (mutAt (mutAt s l) k).M ∧
    (mutAt (mutAt s k) l).cluster = (mutAt (mutAt s l) k).cluster := by
  by_cases he : k = l
  · rw [he]
    exact ⟨rfl, rfl⟩
  · have hlek : l ≠ k := fun h => he h.symm
    constructor
    · rw [mutAt_M, mutAt_M, mutAt_M, mutAt_M]
      exact mmut_comm s.M k l hkl hlk
    · rw [mutAt_cluster (mutAt s k) l, mutAt_cluster (mutAt s l) k,
        mutAt_cluster s k, mutAt_cluster s l,
        exchVal_mutAt_other s k l hlek hkl, exchVal_mutAt_other s l k he hlk]
      exact List.set_comm _ _ _ he

/-! ### The top-level mutate call on a single valid vertex -/

theorem mutate_vertex_ok (s : Seed) (k : ℕ) (hk : k < s.n) :
    mutate s (.vertex (k : ℤ)) true = .ok (quivNone (mutAt s k)) := by
  have hc : (0 : ℤ) ≤ (k : ℤ) ∧ (k : ℤ) < (s.n : ℤ) :=
    ⟨Int.ofNat_nonneg k, by exact_mod_cast hk⟩
  simp [mutate, normSeq, hc, applyList, quivNone, List.find?]

/-- `mutate` is upfront validation followed by the mutation loop. -/
theorem mutate_eq_normSeq (s : Seed) (arg : MutArg) (ip : Bool) :
    mutate s arg ip = match normSeq s.n arg with
      | .error e => .error e
      | .ok seq => .ok (quivNone (applyList (if ip then s else copySeed s) seq)) := by
  cases ip <;> rfl

/-! ### The claims -/

/-- C1: for every cluster seed (cluster of length `n+m`, skew-symmetrizable
exchangeable block) and every exchangeable vertex `k` in `[0,n)`, calling
`mutate` at `k` and then again at `k` returns the seed to its original
state: the exchange matrix and the full cluster of `n+m` variables equal
their values before the two mutations. -/
theorem C1_mutate_twice_involution (s : Seed) (k : ℕ) (hk : k < s.n)
    (hlen : s.cluster.length = s.n + s.m) (hskew : SkewSymmetrizable s.M s.n)
    (s₁ s₂ : Seed)
    (h₁ : mutate s (.vertex (k : ℤ)) true = .ok s₁)
    (h₂ : mutate s₁ (.vertex (k : ℤ)) true = .ok s₂) :
    s₂.M = s.M ∧ ClusterEq s₂.cluster s.cluster := by
  rw [mutate_vertex_ok s k hk] at h₁
  have e₁ := Except.ok.inj h₁
  subst e₁
  rw [mutate_vertex_ok (quivNone (mutAt s k)) k hk] at h₂
  have e₂ := Except.ok.inj h₂
  subst e₂
  constructor
  · show (mutAt (mutAt s k) k).M = s.M
    exact mutAt_mutAt_M s k
  · show ClusterEq (mutAt (mutAt s k) k).cluster s.cluster
    exact mutAt_mutAt_cluster s k (hskew.diag_zero hk) (by omega)

/-- Witness for C1 at the type A rank 4 seed, vertex 1. -/
theorem C1_witness :
    ((mutate ((mutate seedA4 (.vertex ((1:ℕ) : ℤ)) true).toOption.getD seedA4)
        (.vertex ((1:ℕ) : ℤ)) true).toOption.getD seedA4).M = seedA4.M ∧
    ClusterEq ((mutate ((mutate seedA4 (.vertex ((1:ℕ) : ℤ)) true).toOption.getD seedA4)
        (.vertex ((1:ℕ) : ℤ)) true).toOption.getD seedA4).cluster seedA4.cluster :=
  C1_mutate_twice_involution seedA4 1 (by decide) (by decide)
    ⟨fun _ => 1, by decide, by decide⟩
    ((mutate seedA4 (.vertex ((1:ℕ) : ℤ)) true).toOption.getD seedA4)
    ((mutate ((mutate seedA4 (.vertex ((1:ℕ) : ℤ)) true).toOption.getD seedA4)
        (.vertex ((1:ℕ) : ℤ)) true).toOption.getD seedA4)
    rfl rfl

/-- C7: the type A rank 4 seed with the documented initial matrix, after
one mutation at vertex 0, has the documented mutated matrix. -/
theorem C7_a4_mutate0 :
    mutate seedA4 (.vertex 0) true = .ok (quivNone (mutAt seedA4 0)) ∧
    matEqOn 4 4 (quivNone (mutAt seedA4 0)).M a4MutM :=
  ⟨rfl, by decide⟩

/-- C2 counterexample: on the rank 4 seed the scalar index 4 lies outside
`[0,n)`, yet `mutate` raises the `InvalidArgument` error (the scalar is not
recognized as a vertex and is not a list or tuple), not `InvalidVertex`. -/
theorem C2_counterexample :
    mutate seedA4 (.vertex 4) true = .error .invalidArgument ∧
    Err.invalidArgument ≠ Err.invalidVertex 4 :=
  ⟨rfl, by decide⟩

/-- C2 (amended): an out-of-range index that is an element of a list or
tuple argument raises `InvalidVertex` naming the first offender, while an
out-of-range scalar falls through the scalar-recognition test and raises
`InvalidArgument` (as does any argument that is neither a single valid
index nor a list/tuple). -/
theorem C2_amended (s : Seed) (ip : Bool) :
    (∀ v : ℤ, ¬(0 ≤ v ∧ v < (s.n : ℤ)) →
      mutate s (.vertex v) ip = .error .invalidArgument) ∧
    (∀ l : List ℤ, ∀ w : ℤ,
      l.find? (fun v => !(decide (0 ≤ v ∧ v < (s.n : ℤ)))) = some w →
      mutate s (.list l) ip = .error (.invalidVertex w) ∧
      mutate s (.tuple l) ip = .error (.invalidVertex w) ∧
      ¬(0 ≤ w ∧ w < (s.n : ℤ))) := by
  constructor
  · intro v hv
    have hnorm : normSeq s.n (.vertex v) = .error .invalidArgument := by
      show (match (if 0 ≤ v ∧ v < (s.n : ℤ) then some [v] else none) with
            | none => (.error .invalidArgument : Except Err (List ℤ))
            | some seq =>
              match seq.find? (fun v => !(decide (0 ≤ v ∧ v < (s.n : ℤ)))) with
              | some v => .error (.invalidVertex v)
              | none => .ok seq) = .error .invalidArgument
      rw [if_neg hv]
    rw [mutate_eq_normSeq, hnorm]
  · intro l w hw
    have hpred := List.find?_some hw
    have hlist : normSeq s.n (.list l) = .error (.invalidVertex w) := by
      show (match l.find? (fun v => !(decide (0 ≤ v ∧ v < (s.n : ℤ)))) with
            | some v => (.error (.invalidVertex v) : Except Err (List ℤ))
            | none => .ok l) = .error (.invalidVertex w)
      rw [hw]
    have htup : normSeq s.n (.tuple l) = .error (.invalidVertex w) := by
      show (match l.find? (fun v => !(decide (0 ≤ v ∧ v < (s.n : ℤ)))) with
            | some v => (.error (.invalidVertex v) : Except Err (List ℤ))
            | none => .ok l) = .error (.invalidVertex w)
      rw [hw]
    have hw' : w < 0 ∨ (s.n : ℤ) ≤ w := by simpa using hpred
    refine ⟨?_, ?_, by omega⟩
    · rw [mutate_eq_normSeq, hlist]
    · rw [mutate_eq_normSeq, htup]

/-- Witness for C2 (amended): a scalar out of range and a list with the
out-of-range element 7. -/
theorem C2_witness :
    mutate seedA4 (.vertex 4) true = .error .invalidArgument ∧
    mutate seedA4 (.list [1, 7]) true = .error (.invalidVertex 7) :=
  ⟨(C2_amended seedA4 true).1 4 (by decide),
   ((C2_amended seedA4 true).2 [1, 7] 7 (by decide)).1⟩

/-- C3: mutate is atomic on failure — every raise happens during the
upfront validation, before the first mutation step, so on an error the
receiver still holds its original matrix and cluster; and when validation
passes, the whole requested sequence is applied with no further error. -/
theorem C3_mutate_atomic (s : Seed) (arg : MutArg) :
    (∀ e, (mutateInPlace s arg).2 = some e →
      (mutateInPlace s arg).1 = s ∧ normSeq s.n arg = .error e) ∧
    (∀ seq, normSeq s.n arg = .ok seq →
      (mutateInPlace s arg).2 = none ∧
      (mutateInPlace s arg).1 = quivNone (applyList s seq)) := by
  cases h : normSeq s.n arg with
  | error e =>
    have hm : mutate s arg true = .error e := by
      rw [mutate_eq_normSeq, h]
    have hip : mutateInPlace s arg = (s, some e) := by
      rw [mutateInPlace, hm]
    constructor
    · intro e' he'
      rw [hip] at he'
      have : e = e' := by simpa using he'
      subst this
      rw [hip]
      exact ⟨rfl, rfl⟩
    · intro seq hseq
      cases hseq
  | ok seq' =>
    have hm : mutate s arg true = .ok (quivNone (applyList s seq')) := by
      rw [mutate_eq_normSeq, h]
      rfl
    have hip : mutateInPlace s arg = (quivNone (applyList s seq'), none) := by
      rw [mutateInPlace, hm]
    constructor
    · intro e' he'
      rw [hip] at he'
      simp at he'
    · intro seq hseq
      have : seq' = seq := by simpa using hseq
      subst this
      rw [hip]
      exact ⟨rfl, rfl⟩

/-- Witness for C3: an invalid argument leaves the seed untouched, and a
valid sequence completes. -/
theorem C3_witness :
    (mutateInPlace seedA4 (.vertex 9)).1 = seedA4 ∧
    (mutateInPlace seedA4 (.list [0])).2 = none :=
  ⟨((C3_mutate_atomic seedA4 (.vertex 9)).1 .invalidArgument rfl).1,
   ((C3_mutate_atomic seedA4 (.list [0])).2 [0] rfl).1⟩

/-- C5: on a seed whose principal-coefficients flag is unset (`None` or
`False`), `f_polynomial`, `g_vector` and `c_vector` at a valid index and
without the override flag all fail with the `PreconditionUnmet`
"no principal coefficients" error (and, being pure projections, leave the
seed unchanged). -/
theorem C5_no_principal_error (s : Seed) (k : ℕ) (hk : k < s.n)
    (hp : isTruthy s.isPrincipal = false) :
    f_polynomial s k false = .error .noPrincipalCoefficients ∧
    g_vector s k false = .error .noPrincipalCoefficients ∧
    c_vector s k false = .error .noPrincipalCoefficients := by
  refine ⟨?_, ?_, ?_⟩ <;> simp [f_polynomial, g_vector, c_vector, hp, hk]

/-- Witness for C5 at the (non-principal) type A rank 4 seed. -/
theorem C5_witness :
    f_polynomial seedA4 0 false = .error .noPrincipalCoefficients ∧
    g_vector seedA4 0 false = .error .noPrincipalCoefficients ∧
    c_vector seedA4 0 false = .error .noPrincipalCoefficients :=
  C5_no_principal_error seedA4 0 (by decide) (by decide)

/-- C6: principal extension of a seed with `m = 0` produces the stacked
matrix — original on top, identity below — an `(n+n) x n` shape
(`t.n = n`, `t.m = n`), and sets the principal flag to true; with `m ≠ 0`
and no override flag it fails with the `PreconditionUnmet` "matrix not
square" error. -/
theorem C6_principal_extension (s : Seed) :
    (∀ t, s.m = 0 → principal_extension s false = .ok t →
      matEqOn s.n s.n t.M s.M ∧
      (∀ i, i < s.n → ∀ j, j < s.n → t.M (s.n + i) j = if i = j then 1 else 0) ∧
      t.isPrincipal = some true ∧ t.n = s.n ∧ t.m = s.n) ∧
    (s.m ≠ 0 → principal_extension s false = .error .notSquare) := by
  constructor
  · intro t hm ht
    rw [principal_extension, if_neg (by simp [hm])] at ht
    have ht' := Except.ok.inj ht
    subst ht'
    refine ⟨?_, ?_, ?_, rfl, ?_⟩
    · intro i hi j hj
      show stackId s.M (s.n + s.m) i j = s.M i j
      simp only [stackId]
      rw [if_pos (by omega)]
    · intro i hi j hj
      show stackId s.M (s.n + s.m) (s.n + i) j = if i = j then 1 else 0
      simp only [stackId]
      rw [if_neg (by omega)]
      have heq : s.n + i - (s.n + s.m) = i := by omega
      rw [heq]
    · show some (decide (s.m = 0)) = some true
      rw [hm]
      simp
    · show s.m + s.n = s.n
      omega
  · intro hm
    rw [principal_extension, if_pos ⟨by simp, hm⟩]

/-- Witness for C6: the type A rank 4 seed (`m = 0`) and the principal
rank 3 seed (`m = 3 ≠ 0`). -/
theorem C6_witness :
    matEqOn 4 4 seedA4pe.M seedA4.M ∧ seedA4pe.isPrincipal = some true ∧
    seedA4pe.n = 4 ∧ seedA4pe.m = 4 ∧
    principal_extension seedA3PE false = .error .notSquare :=
  ⟨((C6_principal_extension seedA4).1 seedA4pe rfl rfl).1,
   ((C6_principal_extension seedA4).1 seedA4pe rfl rfl).2.2.1,
   ((C6_principal_extension seedA4).1 seedA4pe rfl rfl).2.2.2.1,
   ((C6_principal_extension seedA4).1 seedA4pe rfl rfl).2.2.2.2,
   (C6_principal_extension seedA3PE).2 (by decide)⟩

/-- C10: for every seed (however previously mutated) the seed returned by
`principal_extension` carries exactly the initial generators of the
extended field as its cluster — one generator per row of the stacked
matrix, the caller's cluster variables being discarded — while the top
block of its matrix is the caller's current exchange matrix. -/
theorem C10_principal_extension_cluster (s t : Seed) (ig : Bool)
    (h : principal_extension s ig = .ok t) :
    t.cluster = genList (s.n + (s.m + s.n)) ∧ matEqOn (s.n + s.m) s.n t.M s.M := by
  rw [principal_extension] at h
  by_cases hc : ¬ig ∧ s.m ≠ 0
  · rw [if_pos hc] at h
    cases h
  · rw [if_neg hc] at h
    have ht := Except.ok.inj h
    subst ht
    constructor
    · rfl
    · intro i hi j hj
      show stackId s.M (s.n + s.m) i j = s.M i j
      simp only [stackId]
      rw [if_pos hi]

/-- Witness for C10 on a mutated seed: the result's cluster is the list of
fresh generators, and its top block is the mutated matrix. -/
theorem C10_witness :
    seedA4mutPE.cluster = genList (4 + (0 + 4)) ∧
    matEqOn 4 4 seedA4mutPE.M seedA4mut.M :=
  C10_principal_extension_cluster seedA4mut seedA4mutPE false rfl

/-- Any clone produced by `mutate` with `inplace=False` has a cleared
principal flag (the copy constructor never copies `_is_principal`). -/
theorem mutate_false_resets_principal (s t : Seed) (arg : MutArg)
    (h : mutate s arg false = .ok t) : t.isPrincipal = none ∧ t.n = s.n := by
  rw [mutate_eq_normSeq] at h
  cases hn : normSeq s.n arg with
  | error e =>
    rw [hn] at h
    cases h
  | ok seq =>
    rw [hn] at h
    have ht := Except.ok.inj h
    subst ht
    constructor
    · show (applyList (copySeed s) seq).isPrincipal = none
      rw [applyList_isPrincipal]
      rfl
    · show (applyList (copySeed s) seq).n = s.n
      rw [applyList_n]
      rfl

/-- Every seed in the output of the `mutation_sequence` recursion has a
cleared principal flag. -/
theorem mutSeqGo_principal_none :
    ∀ (l : List ℤ) (seed : Seed) (ts : List Seed), mutSeqGo seed l = .ok ts →
      (ts.all fun u => decide (u.isPrincipal = none)) = true := by
  intro l
  induction l with
  | nil =>
    intro seed ts h
    have h' := Except.ok.inj h
    subst h'
    rfl
  | cons v vs ih =>
    intro seed ts h
    rw [mutSeqGo] at h
    cases hm : mutate seed (.vertex v) false with
    | error e =>
      simp only [hm] at h
      cases h
    | ok t =>
      simp only [hm] at h
      cases hg : mutSeqGo t vs with
      | error e =>
        simp only [hg] at h
        cases h
      | ok ts' =>
        simp only [hg] at h
        have h' := Except.ok.inj h
        subst h'
        rw [List.all_cons]
        have h1 : decide (t.isPrincipal = none) = true := by
          simp [(mutate_false_resets_principal seed t _ hm).1]
        rw [h1, ih t ts' hg]
        rfl

/-- C9: copy construction never preserves the principal flag: for a seed
with the flag set, the clone made by `mutate` with `inplace=False` and the
clones collected by `mutation_sequence` all have the flag unset, so
`f_polynomial` / `g_vector` / `c_vector` fail on them with the
`PreconditionUnmet` "no principal coefficients" error, while the same calls
succeed on the original seed. -/
theorem C9_copy_loses_principal (s t : Seed) (k : ℕ) (hp : s.isPrincipal = some true)
    (hk : k < s.n) (hmn : s.m = s.n) (arg : MutArg)
    (hmut : mutate s arg false = .ok t) (l : List ℤ) (ts : List Seed)
    (hseq : mutation_sequence s l = .ok ts) :
    (copySeed s).isPrincipal = none ∧
    t.isPrincipal = none ∧
    f_polynomial t k false = .error .noPrincipalCoefficients ∧
    g_vector t k false = .error .noPrincipalCoefficients ∧
    c_vector t k false = .error .noPrincipalCoefficients ∧
    (ts.all fun u => decide (u.isPrincipal = none)) = true ∧
    exceptIsOk (f_polynomial s k false) = true ∧
    exceptIsOk (g_vector s k false) = true ∧
    exceptIsOk (c_vector s k false) = true := by
  obtain ⟨htp, htn⟩ := mutate_false_resets_principal s t arg hmut
  have hkt : k < t.n := by rw [htn]; exact hk
  refine ⟨rfl, htp, ?_, ?_, ?_, ?_, ?_, ?_, ?_⟩
  · simp [f_polynomial, htp, isTruthy]
  · simp [g_vector, htp, isTruthy]
  · simp [c_vector, htp, isTruthy, hkt]
  · exact mutSeqGo_principal_none l (copySeed s) ts hseq
  · simp [f_polynomial, hp, isTruthy, hmn, hk, exceptIsOk]
  · simp [g_vector, hp, isTruthy, hmn, hk, exceptIsOk]
  · simp [c_vector, hp, isTruthy, hk, exceptIsOk]

/-- Witness for C9 on the principal rank 3 seed. -/
theorem C9_witness :
    (copySeed seedA3PE).isPrincipal = none ∧
    seedA3PEmut.isPrincipal = none ∧
    f_polynomial seedA3PEmut 0 false = .error .noPrincipalCoefficients ∧
    g_vector seedA3PEmut 0 false = .error .noPrincipalCoefficients ∧
    c_vector seedA3PEmut 0 false = .error .noPrincipalCoefficients ∧
    (seedA3PEseq.all fun u => decide (u.isPrincipal = none)) = true ∧
    exceptIsOk (f_polynomial seedA3PE 0 false) = true ∧
    exceptIsOk (g_vector seedA3PE 0 false) = true ∧
    exceptIsOk (c_vector seedA3PE 0 false) = true :=
  C9_copy_loses_principal seedA3PE seedA3PEmut 0 rfl (by decide) rfl
    (.vertex 0) rfl [0] seedA3PEseq rfl

/-- C8: for every seed and every pair of exchangeable vertices `k`, `l`
with `M[k,l] = M[l,k] = 0`, mutating first at `k` then at `l` yields the
same matrix and the same cluster as mutating first at `l` then at `k`. -/
theorem C8_commuting_mutations (s : Seed) (k l : ℕ) (hk : k < s.n) (hl : l < s.n)
    (hkl : s.M k l = 0) (hlk : s.M l k = 0)
    (s₁ s₂ t₁ t₂ : Seed)
    (h₁ : mutate s (.vertex (k : ℤ)) true = .ok s₁)
    (h₂ : mutate s₁ (.vertex (l : ℤ)) true = .ok s₂)
    (h₃ : mutate s (.vertex (l : ℤ)) true = .ok t₁)
    (h₄ : mutate t₁ (.vertex (k : ℤ)) true = .ok t₂) :
    s₂.M = t₂.M ∧ ClusterEq s₂.cluster t₂.cluster := by
  rw [mutate_vertex_ok s k hk] at h₁
  have e₁ := Except.ok.inj h₁
  subst e₁
  rw [mutate_vertex_ok (quivNone (mutAt s k)) l hl] at h₂
  have e₂ := Except.ok.inj h₂
  subst e₂
  rw [mutate_vertex_ok s l hl] at h₃
  have e₃ := Except.ok.inj h₃
  subst e₃
  rw [mutate_vertex_ok (quivNone (mutAt s l)) k hk] at h₄
  have e₄ := Except.ok.inj h₄
  subst e₄
  obtain ⟨hM, hC⟩ := mutAt_comm s k l hkl hlk
  constructor
  · show (mutAt (mutAt s k) l).M = (mutAt (mutAt s l) k).M
    exact hM
  · show ClusterEq (mutAt (mutAt s k) l).cluster (mutAt (mutAt s l) k).cluster
    rw [hC]
    exact ⟨rfl, fun i => rfEq_refl _⟩

/-- Witness for C8: vertices 0 and 3 of the rank 4 seed are independent. -/
theorem C8_witness : c8s2.M = c8t2.M ∧ ClusterEq c8s2.cluster c8t2.cluster :=
  C8_commuting_mutations seedA4 0 3 (by decide) (by decide) (by decide) (by decide)
    c8s1 c8s2 c8t1 c8t2 rfl rfl rfl rfl

/-- C4: for the rank 3 type A seed with principal coefficients, mutating in
place at the sequence `[2,1,2]` succeeds, and then `f_polynomial 0` returns
`1`, `f_polynomial 1` returns `y1*y2 + y2 + 1` and `f_polynomial 2` returns
`y1 + 1` (as elements of the fraction field). -/
theorem C4_f_polynomials :
    mutate seedA3PE (.list [2, 1, 2]) true = .ok c4seed ∧
    f_polynomial c4seed 0 false = .ok (c4val 0) ∧ RF.Eq (c4val 0) RF.one ∧
    f_polynomial c4seed 1 false = .ok (c4val 1) ∧
    RF.Eq (c4val 1) (c4target1, Pexp.const 1) ∧
    f_polynomial c4seed 2 false = .ok (c4val 2) ∧
    RF.Eq (c4val 2) (c4target2, Pexp.const 1) := by
  refine ⟨rfl, rfl, fun σ => rfl, rfl, ?_, rfl, ?_⟩
  · have h : c4val 1 = (c4num1, c4den1) := by rfl
    rw [h]
    intro σ
    show c4num1.eval σ * (Pexp.const 1).eval σ = c4target1.eval σ * c4den1.eval σ
    simp only [c4num1, c4den1, c4target1, Pexp.eval]
    push_cast
    ring
  · have h : c4val 2 = (c4num2, c4den2) := by rfl
    rw [h]
    intro σ
    show c4num2.eval σ * (Pexp.const 1).eval σ = c4target2.eval σ * c4den2.eval σ
    simp only [c4num2, c4den2, c4target2, Pexp.eval]
    push_cast
    ring
